import Mathlib

/-!
Verification of the chunked concurrent downloader
(`cmd/concurrent-downloader/main.go` and the `download` package it uses).

The Go code is shallowly embedded: pure computations (chunk planning, the
byte-range strings, chunk combination) become Lean functions; the network,
the filesystem and the goroutine scheduling become explicit parameters and
state threading.  Go `int` values are modelled as `Nat`/`Int`: every content
length the claims quantify over is non-negative, and all quantities stay far
below 2^63, so Go's truncated integer division and remainder coincide with
`Nat` division and remainder on the operands reachable here.
-/

namespace ConcurrentDownloader

/-- Bytes of a file or of a response body. -/
abbrev Bytes := List Nat

/-- The fixed small-file threshold `1024 * 1024 * 10` from `downloadLargeFile`. -/
def tenMiB : Nat := 1024 * 1024 * 10

/-- One planned byte range: the loop variables `min` and `max` of
`downloadLargeFile` (inclusive bounds, Go `int`, modelled as `Int` since
`max` is `-1` for an empty file). -/
@[ext]
structure ByteRange where
  min : Int
  max : Int
deriving DecidableEq, Repr, Inhabited

/-- One iteration of the range loop of `downloadLargeFile` (main.go lines
146-152): `min` and `max` for part `i`, with the last part's `max` extended by
`lastByteLeft` when that is positive. -/
def chunkAt (totalBytesPerGoroutine lastByteLeft numConcParts i : Nat) : ByteRange :=
  let mn : Int := (totalBytesPerGoroutine : Int) * (i : Int)
  let mx : Int := (totalBytesPerGoroutine : Int) * ((i : Int) + 1) - 1
  let mx := if i = numConcParts - 1 ∧ 0 < lastByteLeft then mx + (lastByteLeft : Int) else mx
  { min := mn, max := mx }

/-- The chunk planning of `downloadLargeFile` (main.go lines 130-152):
`numConcParts`, `totalBytesPerGoroutine` and `lastByteLeft` are set from the
threshold test on `contentLength`, and the loop produces one range per part. -/
def planChunks (contentLength : Nat) (numConcPartsOpt : Nat) : List ByteRange :=
  let numConcParts := if contentLength ≤ tenMiB then 1 else numConcPartsOpt
  let totalBytesPerGoroutine := if contentLength ≤ tenMiB then 0 else contentLength / numConcPartsOpt
  let lastByteLeft := if contentLength ≤ tenMiB then contentLength else contentLength % numConcPartsOpt
  (List.range numConcParts).map (chunkAt totalBytesPerGoroutine lastByteLeft numConcParts)

/-- The string `strconv.Itoa(min) + "-" + strconv.Itoa(max)` passed as the
`byteRange` argument of `downloadFileForRange` (main.go line 165). -/
def byteRangeString (r : ByteRange) : String :=
  toString r.min ++ "-" ++ toString r.max

/-- The byte-range strings a job passes to its fetchers, one per planned
range, in spawn order. -/
def jobRangeArgs (contentLength numConcPartsOpt : Nat) : List String :=
  (planChunks contentLength numConcPartsOpt).map byteRangeString

/-- The `Range` header value set by `downloadFileForRange` (main.go lines
216-218): the header is added only when the `byteRange` string is non-empty,
with value `"bytes=" ++ byteRange`; `none` means no `Range` header. -/
def rangeHeaderOf (byteRange : String) : Option String :=
  if byteRange = "" then none else some ("bytes=" ++ byteRange)

/-- The partition property claim C1 asserts of the planner at content length
`L` and part count `P`: `P` ranges, range `i` spanning
`[i*(L/P), (i+1)*(L/P)-1]` with the last extended by `L % P`, contiguous,
strictly increasing, non-overlapping, starting at `0` and ending at `L-1`. -/
def ChunkPlanClaim (L P : Nat) : Prop :=
  (planChunks L P).length = P ∧
  (∀ i, (hi : i < (planChunks L P).length) →
    ((planChunks L P)[i]).min = ((L / P : Nat) : Int) * (i : Int) ∧
    ((planChunks L P)[i]).max = ((L / P : Nat) : Int) * ((i : Int) + 1) - 1 +
      (if i = P - 1 then ((L % P : Nat) : Int) else 0)) ∧
  (∀ i, (hi : i < (planChunks L P).length) → (hi1 : i + 1 < (planChunks L P).length) →
    ((planChunks L P)[i + 1]).min = ((planChunks L P)[i]).max + 1 ∧
    ((planChunks L P)[i]).min < ((planChunks L P)[i + 1]).min ∧
    ((planChunks L P)[i]).max < ((planChunks L P)[i + 1]).min) ∧
  (∀ h0 : 0 < (planChunks L P).length, ((planChunks L P)[0]).min = 0) ∧
  (∀ hl : P - 1 < (planChunks L P).length, ((planChunks L P)[P - 1]).max = (L : Int) - 1)

/-- The error values the downloader can record, one constructor per error
site of the Go source (`fmt.Errorf` strings abbreviated to their site). -/
inductive DlError where
  /-- `checkFileSizeWithHeaderContentLength`: the HEAD request itself failed. -/
  | headTransport (url : String)
  /-- `checkFileSizeWithHeaderContentLength`: HEAD status was not 200. -/
  | headStatus (code : Nat) (url : String)
  /-- `checkFileSizeWithHeaderContentLength`: `strconv.Atoi` failed on the header. -/
  | headParse (url : String)
  /-- `Download` line 86: "error while checking the size of the file". -/
  | probeFailed
  /-- `Download` line 91: "error while processing based on contentlength". -/
  | staleState
  /-- `createOutputFile`: the destination path already exists. -/
  | fileExists (path : String)
  /-- `downloadFileForRange`: `http.NewRequest` failed. -/
  | newRequest
  /-- `downloadFileForRange`: `client.Do` failed. -/
  | doTransport
  /-- `downloadFileForRange`: status was neither 200 nor 206. -/
  | badStatus (code : Nat)
  /-- `downloadFileForRange`: `io.Copy` of the response body failed. -/
  | copyBody
  /-- `downloadLargeFile` line 170 wraps an already-set `d.err`. -/
  | rangeWrap (e : DlError)
deriving DecidableEq, Repr, Inhabited

/-- Model of Go `strconv.Atoi`: an optional sign followed by one or more
decimal digits; anything else fails.  (Range errors at the 64-bit bounds are
not modelled; every value appearing here is far below them.) -/
def atoi (s : String) : Option Int :=
  let digitsVal : List Char → Nat := fun ds =>
    ds.foldl (fun a c => 10 * a + (c.toNat - 48)) 0
  let core : List Char → Int → Option Int := fun ds sign =>
    if ds ≠ [] ∧ ds.all (fun c => c.isDigit) then some (sign * (digitsVal ds : Int)) else none
  match s.toList with
  | '-' :: rest => core rest (-1)
  | '+' :: rest => core rest 1
  | l => core l 1

/-- Outcome of one HEAD request: either the transport fails, or a response
arrives with a status code and the value of its `Content-Length` header
(`""` when the header is absent, as Go's `Header.Get` returns). -/
inductive HeadOutcome where
  | transportError
  | ok (statusCode : Nat) (contentLengthHeader : String)
deriving DecidableEq, Repr, Inhabited

/-- Outcome of one GET request: either the transport fails, or a response
arrives with a status code, the body bytes actually delivered, and a flag
for a mid-stream error during `io.Copy` (the delivered bytes are flushed
before the error surfaces). -/
inductive GetOutcome where
  | transportError
  | response (statusCode : Nat) (delivered : Bytes) (copyErr : Bool)
deriving DecidableEq, Repr, Inhabited

/-- The network environment: what HEAD returns per URL, whether
`http.NewRequest` fails for a URL, and what GET returns per URL and
optional `Range` header value. -/
structure Net where
  head : String → HeadOutcome
  newRequestFails : String → Bool
  get : String → Option String → GetOutcome

/-- `checkFileSizeWithHeaderContentLength` (main.go lines 251-272): HEAD the
URL; fail on transport error or non-200 status; an absent `Content-Length`
header yields size `0` without error; a header that `strconv.Atoi` cannot
parse is an error. -/
def checkFileSizeWithHeaderContentLength (net : Net) (fileUrl : String) : Except DlError Int :=
  match net.head fileUrl with
  | .transportError => .error (.headTransport fileUrl)
  | .ok status header =>
    if status ≠ 200 then .error (.headStatus status fileUrl)
    else if header = "" then .ok 0
    else
      match atoi header with
      | none => .error (.headParse fileUrl)
      | some n => .ok n

/-- `Except.isOk` of the size probe: `true` exactly when
`checkFileSizeWithHeaderContentLength` does not fail. -/
def probeOk (net : Net) (url : String) : Bool :=
  (checkFileSizeWithHeaderContentLength net url).isOk

/-- Result of one `downloadFileForRange` call: the error it assigns to
`d.err` (if any), the bytes it writes into its chunk file, and how many
times it receives from `waitchan` (its permit releases). -/
structure FetchResult where
  err : Option DlError
  written : Bytes
  permitsReleased : Nat
deriving DecidableEq, Repr, Inhabited

/-- `downloadFileForRange` (main.go lines 204-247).  The order of the checks
mirrors the source: `http.NewRequest` failure and `client.Do` failure return
before the `defer` that receives from `waitchan` is registered, so those two
paths release no permit; the status check and `io.Copy` run after it, so
their paths (and success) release exactly one. -/
def downloadFileForRange (net : Net) (url byteRange : String) : FetchResult :=
  if net.newRequestFails url then
    { err := some .newRequest, written := [], permitsReleased := 0 }
  else
    match net.get url (rangeHeaderOf byteRange) with
    | .transportError => { err := some .doTransport, written := [], permitsReleased := 0 }
    | .response status delivered copyErr =>
      if status ≠ 200 ∧ status ≠ 206 then
        { err := some (.badStatus status), written := [], permitsReleased := 1 }
      else if copyErr then
        { err := some .copyBody, written := delivered, permitsReleased := 1 }
      else
        { err := none, written := delivered, permitsReleased := 1 }

/-- The local filesystem, an association list from path to contents.  Only
final output files live here; chunk temporaries are created and removed
within one job and are modelled as pure values. -/
abbrev FS := List (String × Bytes)

/-- Write `b` at path `p`, replacing any existing entry. -/
def FS.setF (fs : FS) (p : String) (b : Bytes) : FS :=
  match fs with
  | [] => [(p, b)]
  | (q, c) :: rest => if q = p then (p, b) :: rest else (q, c) :: FS.setF rest p b

/-- `createOutputFile` (main.go lines 99-110): fail when `os.Stat` finds the
path already present, otherwise create it empty. -/
def createOutputFile (fs : FS) (path : String) : Except DlError FS :=
  if (fs.lookup path).isSome then .error (.fileExists path)
  else .ok (FS.setF fs path [])

/-- An open file as the combiner sees it: contents plus the shared
read/write cursor (`the cursor would be at the end` after the fetcher's
sequential writes). -/
structure FileHandle where
  data : Bytes
  pos : Nat
deriving DecidableEq, Repr, Inhabited

/-- `io.Copy(dst, src)`: append everything from `src`'s cursor on to `dst`
and report how many bytes were copied. -/
def ioCopy (dst src : FileHandle) : FileHandle × Nat :=
  let tail := src.data.drop src.pos
  ({ data := dst.data ++ tail, pos := dst.pos + tail.length }, tail.length)

/-- One iteration of the `combineChunks` loop: `handle.Seek(0, 0)` then
`io.Copy(outFile, handle)`, accumulating the written-byte count. -/
def combineStep (acc : FileHandle × Nat) (handle : FileHandle) : FileHandle × Nat :=
  let h0 : FileHandle := { handle with pos := 0 }
  let out := ioCopy acc.1 h0
  (out.1, acc.2 + out.2)

/-- `combineChunks` (main.go lines 185-201): for `i = 0 .. len-1` in index
order, seek chunk `i` to its start and copy its full contents to the output.
The `fileChunks` list is already in index order, exactly as the Go code reads
`fileChunks[i]` for increasing `i`.  Filesystem writes are modelled as always
succeeding, so the combiner never fails here. -/
def combineChunks (fileChunks : List FileHandle) (outFile : FileHandle) : FileHandle × Nat :=
  fileChunks.foldl combineStep (outFile, 0)

/-- Split a character list at every occurrence of `sep`, keeping empty
segments, as Go's `strings.Split` does for a one-character separator;
`acc` holds the current segment reversed. -/
def splitCharAux (sep : Char) : List Char → List Char → List (List Char)
  | [], acc => [acc.reverse]
  | c :: rest, acc =>
    if c = sep then acc.reverse :: splitCharAux sep rest []
    else splitCharAux sep rest (c :: acc)

/-- `strings.Split(s, "/")`. -/
def splitSlash (s : String) : List String :=
  (splitCharAux '/' s.toList []).map String.mk

/-- Last segment of the URL: `strings.Split(fileUri, "/")` and take the last
element (`Download`, main.go lines 82-83). -/
def fileNameOf (fileUri : String) : String := (splitSlash fileUri).getLastD ""

/-- `filepath.Base` restricted to the names reachable here: the empty path
maps to `"."`, otherwise the last `/`-separated segment. -/
def filepathBase (name : String) : String :=
  if name = "" then "." else (splitSlash name).getLastD ""

/-- `filepath.Join` of a directory and a base name. -/
def joinPath (dir name : String) : String := dir ++ "/" ++ name

/-- `DownloadOptions` (main.go lines 56-64). -/
structure DownloadOptions where
  DownloadDir : String
  NumConcParts : Nat
  MaxLimitConcurrency : Nat
deriving DecidableEq, Repr, Inhabited

/-- The output path of a job: `filepath.Join(d.downloadOptions.DownloadDir,
filepath.Base(fileName))` (main.go line 117). -/
def outputPathOf (opts : DownloadOptions) (fileName : String) : String :=
  joinPath opts.DownloadDir (filepathBase fileName)

/-- The mutable fields of a `Downloader` (main.go lines 67-71): the shared
error slot `err` and the accumulated `downloadPaths`.  They persist across
`Download` calls on the same value. -/
structure DState where
  err : Option DlError
  downloadPaths : List String
deriving DecidableEq, Repr, Inhabited

/-- Successive assignments to the shared `d.err` slot: each failing fetch
overwrites it, so the last failure in assignment order wins. -/
def lastErrOf (results : List FetchResult) (e0 : Option DlError) : Option DlError :=
  results.foldl (fun acc fr => match fr.err with | some e => some e | none => acc) e0

/-- What one `downloadLargeFile` run leaves behind: the updated downloader
fields, the filesystem, and the GET requests (URL and optional `Range`
header) its fetchers issued. -/
structure JobOutcome where
  state : DState
  fs : FS
  requests : List (String × Option String)
deriving Repr, Inhabited

/-- `downloadLargeFile` (main.go lines 113-182) under the canonical schedule
in which each spawned fetch goroutine's effects land when the orchestrator
blocks in `wg1.Wait()`.  Consequences, each mirroring the source:
the existing-destination check runs before anything else and aborts with no
request issued; the `d.err != nil` check at line 169 reads the err field as
it was when the job started (no fetch effect has landed yet), and on that
path the spawned fetchers still run, the created (empty) output file
remains, and no path is recorded; otherwise the job waits, combines the
chunks in index order into the output file, and appends the output path to
`downloadPaths` unconditionally — there is no error check between
`wg1.Wait()` and the append, so even a job with failed fetches records its
path.  Temp-file creation (`os.CreateTemp`) is modelled as always
succeeding. -/
def downloadLargeFile (opts : DownloadOptions) (net : Net) (st : DState) (fs : FS)
    (url fileName : String) (contentLength : Nat) : JobOutcome :=
  let outputFilePath := outputPathOf opts fileName
  match createOutputFile fs outputFilePath with
  | .error e => { state := { st with err := some e }, fs := fs, requests := [] }
  | .ok fs1 =>
    let ranges := planChunks contentLength opts.NumConcParts
    let fetches := ranges.map (fun r => downloadFileForRange net url (byteRangeString r))
    let reqs := ranges.map (fun r => (url, rangeHeaderOf (byteRangeString r)))
    match st.err with
    | some e =>
      { state := { st with err := lastErrOf fetches (some (.rangeWrap e)) }
        fs := fs1
        requests := reqs }
    | none =>
      let chunkHandles := fetches.map (fun fr => FileHandle.mk fr.written fr.written.length)
      let combined := (combineChunks chunkHandles { data := [], pos := 0 }).1
      { state := { err := lastErrOf fetches none
                   downloadPaths := st.downloadPaths ++ [outputFilePath] }
        fs := FS.setF fs1 outputFilePath combined.data
        requests := reqs }

/-- One job as registered by `Download`'s loop before its goroutine runs. -/
structure PendingJob where
  url : String
  fileName : String
  contentLength : Nat
deriving DecidableEq, Repr, Inhabited

/-- Run the spawned jobs in spawn order, threading the downloader fields and
the filesystem (the canonical sequential schedule of the per-URL
goroutines). -/
def runJobs (opts : DownloadOptions) (net : Net) : DState → FS → List PendingJob → DState × FS
  | st, fs, [] => (st, fs)
  | st, fs, j :: rest =>
    let out := downloadLargeFile opts net st fs j.url j.fileName j.contentLength
    runJobs opts net out.state out.fs rest

/-- The per-URL loop of `Download` (main.go lines 81-93): derive the file
name, HEAD the URL (an error returns at once with `probeFailed`), spawn the
job, then check `d.err`; under the canonical schedule no job effect has
landed during the loop, so that check sees the err field as it was when the
call started — if it is set, the loop returns at once with `staleState`,
the just-spawned job still pending.  Returns the URLs probed, the jobs
spawned, and the early-return error if any. -/
def probeLoop (net : Net) (errIn : Option DlError) :
    List String → List String × List PendingJob × Option DlError
  | [] => ([], [], none)
  | url :: rest =>
    match checkFileSizeWithHeaderContentLength net url with
    | .error _ => ([url], [], some .probeFailed)
    | .ok size =>
      let job : PendingJob :=
        { url := url, fileName := fileNameOf url, contentLength := size.toNat }
      if errIn.isSome then ([url], [job], some .staleState)
      else
        match probeLoop net errIn rest with
        | (probed, pending, early) => (url :: probed, job :: pending, early)

/-- What one `Download` call produces: the downloader fields and filesystem
after every spawned goroutine has finished, the path list and error the call
itself returns, and the URLs it probed. -/
structure DownloadOutcome where
  state : DState
  fs : FS
  returnedPaths : List String
  returnedErr : Option DlError
  probedUrls : List String
deriving Repr, Inhabited

/-- `Download` (main.go lines 78-96).  On an early return the function
returns the named result `downloadPaths`, which is never assigned, hence the
empty list — not `d.downloadPaths`; spawned jobs still run to completion
and their effects persist in the downloader fields.  When the loop
completes, the code waits on the `WaitGroup` and then executes
`return d.downloadPaths, nil` — the error returned on this path is always
`nil`, whatever `d.err` holds. -/
def DownloadRun (opts : DownloadOptions) (net : Net) (st : DState) (fs : FS)
    (fileUrls : List String) : DownloadOutcome :=
  let probeRes := probeLoop net st.err fileUrls
  let jobRes := runJobs opts net st fs probeRes.2.1
  match probeRes.2.2 with
  | some e =>
    { state := jobRes.1, fs := jobRes.2, returnedPaths := [], returnedErr := some e
      probedUrls := probeRes.1 }
  | none =>
    { state := jobRes.1, fs := jobRes.2, returnedPaths := jobRes.1.downloadPaths
      returnedErr := none, probedUrls := probeRes.1 }

/-- Counting abstraction of the shared `waitchan` protocol.  Each planned
fetch is one task: `idle` before the orchestrator reaches it, `ready` after
the orchestrator's send on `waitchan` (main.go line 162) but before the
goroutine issues its HTTP request, `inFlight` once `client.Do` has been
called (line 224), then finished — `released` if it passed the deferred
receive (lines 231-234), `leaked` if it returned on the `NewRequest` or
`client.Do` failure paths that skip it (lines 211-228).  `chan` is the
number of tokens in the buffered channel. -/
structure LimiterState where
  idle : Nat
  ready : Nat
  inFlight : Nat
  released : Nat
  leaked : Nat
  chan : Nat
deriving DecidableEq, Repr, Inhabited

/-- Interleaving steps of the `waitchan` protocol, for a buffered channel of
capacity `cap`: a send blocks unless the buffer holds fewer than `cap`
tokens, a receive blocks unless it holds at least one. -/
inductive LimiterStep (cap : Nat) : LimiterState → LimiterState → Prop where
  /-- The orchestrator sends on `waitchan` and spawns the fetch goroutine. -/
  | acquire (s : LimiterState) (hidle : 0 < s.idle) (hcap : s.chan < cap) :
      LimiterStep cap s
        { s with idle := s.idle - 1, ready := s.ready + 1, chan := s.chan + 1 }
  /-- A spawned fetch goroutine issues its HTTP request. -/
  | issue (s : LimiterState) (hready : 0 < s.ready) :
      LimiterStep cap s { s with ready := s.ready - 1, inFlight := s.inFlight + 1 }
  /-- A fetch finishes through the deferred receive from `waitchan`. -/
  | finishRelease (s : LimiterState) (hf : 0 < s.inFlight) (hchan : 0 < s.chan) :
      LimiterStep cap s
        { s with inFlight := s.inFlight - 1, released := s.released + 1, chan := s.chan - 1 }
  /-- A fetch finishes on a path that skips the deferred receive. -/
  | finishLeak (s : LimiterState) (hf : 0 < s.inFlight) :
      LimiterStep cap s { s with inFlight := s.inFlight - 1, leaked := s.leaked + 1 }

/-- Initial state for a batch with `n` planned fetches in total. -/
def LimiterInit (n : Nat) : LimiterState :=
  { idle := n, ready := 0, inFlight := 0, released := 0, leaked := 0, chan := 0 }

/-- States reachable by any interleaving of the `waitchan` protocol. -/
def LimiterReachable (cap n : Nat) (s : LimiterState) : Prop :=
  Relation.ReflTransGen (LimiterStep cap) (LimiterInit n) s

/-- The options of the concrete evaluation theorems: download directory
`"dl"`, two parts per large file, concurrency ceiling five. -/
def dlOpts : DownloadOptions :=
  { DownloadDir := "dl", NumConcParts := 2, MaxLimitConcurrency := 5 }

/-- A network whose HEAD always reports status 200 with `Content-Length: 5`
and whose GET always answers 404 with an empty body. -/
def netAll404 : Net :=
  { head := fun _ => .ok 200 "5", newRequestFails := fun _ => false,
    get := fun _ _ => .response 404 [] false }

/-- A network that reports `body`'s length on HEAD and always delivers
`body` with status 206. -/
def netOk (body : Bytes) : Net :=
  { head := fun _ => .ok 200 (toString body.length), newRequestFails := fun _ => false,
    get := fun _ _ => .response 206 body false }

theorem planChunks_large_eq {contentLength numConcPartsOpt : Nat}
    (h : tenMiB < contentLength) :
    planChunks contentLength numConcPartsOpt =
      (List.range numConcPartsOpt).map
        (chunkAt (contentLength / numConcPartsOpt) (contentLength % numConcPartsOpt)
          numConcPartsOpt) := by
  rw [planChunks]
  rw [if_neg (Nat.not_le.mpr h), if_neg (Nat.not_le.mpr h), if_neg (Nat.not_le.mpr h)]

theorem planChunks_length_large {contentLength numConcPartsOpt : Nat}
    (h : tenMiB < contentLength) :
    (planChunks contentLength numConcPartsOpt).length = numConcPartsOpt := by
  rw [planChunks_large_eq h, List.length_map, List.length_range]

theorem planChunks_getElem_large {contentLength P : Nat}
    (h : tenMiB < contentLength) (i : Nat)
    (hi : i < (planChunks contentLength P).length) :
    (planChunks contentLength P)[i] =
      chunkAt (contentLength / P) (contentLength % P) P i := by
  have hi' : i < P := by
    have := hi
    rwa [planChunks_length_large h] at this
  simp only [planChunks_large_eq h]
  rw [List.getElem_map]
  congr 1
  exact List.getElem_range _ _

theorem chunkAt_min_eq (tb rem n i : Nat) :
    (chunkAt tb rem n i).min = (tb : Int) * (i : Int) := rfl

theorem chunkAt_max_eq (tb rem n i : Nat) :
    (chunkAt tb rem n i).max =
      (tb : Int) * ((i : Int) + 1) - 1 +
        (if i = n - 1 ∧ 0 < rem then (rem : Int) else 0) := by
  simp only [chunkAt]
  split
  · rfl
  · simp

theorem planChunks_small {L P : Nat} (h : L ≤ tenMiB) :
    planChunks L P = [{ min := 0, max := (L : Int) - 1 }] := by
  rw [planChunks, if_pos h, if_pos h, if_pos h,
    (show List.range 1 = [0] from rfl), List.map_cons, List.map_nil]
  congr 1
  refine ByteRange.ext ?_ ?_
  · rw [chunkAt_min_eq]; simp
  · rw [chunkAt_max_eq]
    by_cases hL : 0 < L
    · rw [if_pos ⟨by decide, hL⟩]
      push_cast
      ring
    · rw [if_neg (by exact fun hc => hL hc.2)]
      have : L = 0 := by omega
      subst this
      simp

/-- C1 (amended): for every content length `L > 10 MiB` and part count `P`
with `1 ≤ P ≤ L`, the planning in `downloadLargeFile` produces exactly `P`
ranges, range `i` spans `[i*(L/P), (i+1)*(L/P)-1]` with the last range's end
extended by `L mod P`, and the ranges partition `[0, L)`: contiguous,
strictly increasing, non-overlapping, first start `0`, last end `L-1`.
(The original claim, quantified over every `P ≥ 1`, fails when `P > L`.) -/
theorem planChunks_partition_of_parts_le_length (L P : Nat) (hL : tenMiB < L)
    (hP : 1 ≤ P) (hPL : P ≤ L) : ChunkPlanClaim L P := by
  have hlen := @planChunks_length_large L P hL
  have htb : 1 ≤ L / P := Nat.div_pos hPL (by omega)
  have htbi : (1 : Int) ≤ ((L / P : Nat) : Int) := by exact_mod_cast htb
  have hkey : (P : Int) * ((L / P : Nat) : Int) + ((L % P : Nat) : Int) = (L : Int) := by
    exact_mod_cast Nat.div_add_mod L P
  refine ⟨hlen, ?_, ?_, ?_, ?_⟩
  · intro i hi
    rw [planChunks_getElem_large hL i hi, chunkAt_min_eq, chunkAt_max_eq]
    refine ⟨rfl, ?_⟩
    by_cases h1 : i = P - 1
    · by_cases h2 : 0 < L % P
      · rw [if_pos ⟨h1, h2⟩, if_pos h1]
      · rw [if_neg (fun hc => h2 hc.2), if_pos h1]
        have h0 : L % P = 0 := by omega
        rw [h0]
        simp
    · rw [if_neg (fun hc => h1 hc.1), if_neg h1]
  · intro i hi hi1
    have hiP : i + 1 < P := by rwa [hlen] at hi1
    have hne : i ≠ P - 1 := by omega
    simp only [planChunks_getElem_large hL, chunkAt_min_eq, chunkAt_max_eq, hne, false_and,
      if_false, Nat.cast_succ]
    refine ⟨by ring, ?_, by linarith⟩
    have hexp : ((L / P : Nat) : Int) * ((i : Int) + 1) = ((L / P : Nat) : Int) * (i : Int) +
        ((L / P : Nat) : Int) := by ring
    rw [hexp]
    linarith
  · intro h0
    rw [planChunks_getElem_large hL 0 h0, chunkAt_min_eq]
    simp
  · intro hl
    rw [planChunks_getElem_large hL (P - 1) hl, chunkAt_max_eq]
    have hcast : ((P - 1 : Nat) : Int) = (P : Int) - 1 := by
      rw [Nat.cast_sub hP]
      simp
    by_cases h2 : 0 < L % P
    · rw [if_pos ⟨rfl, h2⟩, hcast]
      have hexp : ((L / P : Nat) : Int) * ((P : Int) - 1 + 1) =
          (P : Int) * ((L / P : Nat) : Int) := by ring
      rw [hexp]
      linarith
    · rw [if_neg (fun hc => h2 hc.2), hcast]
      have h0 : L % P = 0 := by omega
      rw [h0] at hkey
      have hexp : ((L / P : Nat) : Int) * ((P : Int) - 1 + 1) =
          (P : Int) * ((L / P : Nat) : Int) := by ring
      rw [hexp]
      simp only [Nat.cast_zero, add_zero] at hkey
      linarith

/-- C1 counterexample: at content length `L = 10 MiB + 1` and part count
`P = L + 1 ≥ 1`, the planner's per-part byte count `L / P` is `0`, so the
first two ranges both start at offset `0` — the ranges are not strictly
increasing and the claimed partition property fails. -/
theorem planChunks_not_partition_when_parts_exceed_length :
    ¬ ChunkPlanClaim 10485761 10485762 := by
  intro hcl
  have hL : tenMiB < 10485761 := by norm_num [tenMiB]
  obtain ⟨hlen, -, hmono, -, -⟩ := hcl
  have h0 : 0 < (planChunks 10485761 10485762).length := by rw [hlen]; norm_num
  have h1 : 0 + 1 < (planChunks 10485761 10485762).length := by rw [hlen]; norm_num
  have hlt := (hmono 0 h0 h1).2.1
  rw [planChunks_getElem_large hL 0 h0, planChunks_getElem_large hL (0 + 1) h1,
    chunkAt_min_eq, chunkAt_min_eq] at hlt
  have hdiv : 10485761 / 10485762 = 0 := Nat.div_eq_of_lt (by norm_num)
  rw [hdiv] at hlt
  simp at hlt

/-- C1 witness: at `L = 10485764` and `P = 2` the hypotheses of the amended
theorem hold and the partition property follows. -/
theorem planChunks_partition_witness : ChunkPlanClaim 10485764 2 :=
  planChunks_partition_of_parts_le_length 10485764 2 (by norm_num [tenMiB]) (by norm_num)
    (by norm_num)

/-- C4: for every content length `L ≤ 10 MiB` (including `L = 0`) and every
configured part count, the planning step produces exactly one range
covering `[0, L-1]`. -/
theorem planChunks_small_single_range (L P : Nat) (hL : L ≤ tenMiB) :
    planChunks L P = [{ min := 0, max := (L : Int) - 1 }] :=
  planChunks_small hL

/-- C4 witness: a 3-byte file with `NumConcParts = 7` is planned as the
single range `[0, 2]`. -/
theorem planChunks_small_single_range_witness :
    planChunks 3 7 = [{ min := 0, max := (3 : Int) - 1 }] :=
  planChunks_small_single_range 3 7 (by norm_num [tenMiB])

/-- C3 (code bug): the permit release is not unconditional.  A fetch whose
`client.Do` fails, or whose `http.NewRequest` fails, returns before the
deferred receive from `waitchan` is registered and releases no permit, while
a non-200/206 status does release one.  The claim that every completion path
releases exactly one permit is violated by the first two paths. -/
theorem transport_failure_releases_no_permit :
    (downloadFileForRange
      { head := fun _ => .ok 200 "100", newRequestFails := fun _ => false,
        get := fun _ _ => .transportError } "http://host/f.bin" "0-99").permitsReleased = 0 ∧
    (downloadFileForRange
      { head := fun _ => .ok 200 "100", newRequestFails := fun _ => true,
        get := fun _ _ => .response 206 [1] false } "http://host/f.bin" "0-99").permitsReleased
      = 0 ∧
    (downloadFileForRange
      { head := fun _ => .ok 200 "100", newRequestFails := fun _ => false,
        get := fun _ _ => .response 404 [] false } "http://host/f.bin" "0-99").permitsReleased
      = 1 :=
  ⟨rfl, rfl, rfl⟩

theorem combineFold_data (chunks : List FileHandle) (out : FileHandle) (w : Nat) :
    (chunks.foldl combineStep (out, w)).1.data =
      out.data ++ (chunks.map FileHandle.data).flatten := by
  induction chunks generalizing out w with
  | nil => simp
  | cons h t ih =>
    rw [List.foldl_cons]
    have hstep : combineStep (out, w) h =
        ({ data := out.data ++ h.data, pos := out.pos + h.data.length }, w + h.data.length) := by
      simp [combineStep, ioCopy]
    rw [hstep, ih]
    simp [List.append_assoc]

/-- C7: `combineChunks` writes the chunks strictly in ascending index order,
seeking each chunk back to offset `0` first, so whatever position each
chunk's cursor was left at (fetch completion order only affects those
cursors), the output file ends up holding exactly the concatenation of the
chunks' full contents in index order. -/
theorem combineChunks_concatenates_in_index_order
    (fileChunks : List FileHandle) (outFile : FileHandle) :
    (combineChunks fileChunks outFile).1.data =
      outFile.data ++ (fileChunks.map FileHandle.data).flatten := by
  rw [combineChunks]
  exact combineFold_data fileChunks outFile 0

theorem byteRangeString_ne_empty (r : ByteRange) : byteRangeString r ≠ "" := by
  intro h
  have hlen := congrArg String.length h
  rw [byteRangeString] at hlen
  rw [String.length_append, String.length_append] at hlen
  have h1 : ("-" : String).length = 1 := rfl
  have h0 : ("" : String).length = 0 := rfl
  omega

/-- C9 counterexample: for the 3 MB file of the claimed scenario the job
passes the non-empty byte range `"0-2999999"` to the fetcher, and the
fetcher therefore sets a `Range` header — it is false that no byte range is
passed for a file below the threshold. -/
theorem small_file_carries_range_header :
    jobRangeArgs 3000000 4 = ["0-2999999"] ∧
    ¬ (∀ s ∈ jobRangeArgs 3000000 4, rangeHeaderOf s = none) := by
  constructor
  · rfl
  · decide

/-- C9 (amended): a file at or below the 10 MiB threshold is fetched with a
single GET request, but that request's byte range is the non-empty string
`"0-" ++ toString (L-1)` covering the whole file, so the `Range` header is
set (the header would be omitted only for an empty byte-range string, which
`downloadLargeFile` never passes). -/
theorem small_file_single_request_with_range_header (L P : Nat) (hL : L ≤ tenMiB) :
    jobRangeArgs L P = [byteRangeString { min := 0, max := (L : Int) - 1 }] ∧
    rangeHeaderOf (byteRangeString { min := 0, max := (L : Int) - 1 }) =
      some ("bytes=" ++ byteRangeString { min := 0, max := (L : Int) - 1 }) := by
  constructor
  · rw [jobRangeArgs, planChunks_small hL]
    rfl
  · rw [rangeHeaderOf, if_neg (byteRangeString_ne_empty _)]

/-- C9 witness: for a 5-byte file with `NumConcParts = 3` the fetcher is
called once, with byte range `"0-4"`. -/
theorem small_file_single_request_witness :
    jobRangeArgs 5 3 = [byteRangeString { min := 0, max := (5 : Int) - 1 }] :=
  (small_file_single_request_with_range_header 5 3 (by norm_num [tenMiB])).1

theorem limiter_invariant {cap n : Nat} {s : LimiterState} (h : LimiterReachable cap n s) :
    s.chan = s.ready + s.inFlight + s.leaked ∧ s.chan ≤ cap := by
  induction h with
  | refl => simp [LimiterInit]
  | tail hsteps hstep ih =>
    obtain ⟨hsum, hle⟩ := ih
    cases hstep with
    | acquire hidle hcap => refine ⟨?_, ?_⟩ <;> simp <;> omega
    | issue hready => refine ⟨?_, ?_⟩ <;> simp <;> omega
    | finishRelease hf hchan => refine ⟨?_, ?_⟩ <;> simp <;> omega
    | finishLeak hf => refine ⟨?_, ?_⟩ <;> simp <;> omega

/-- C5: in every interleaving of the `waitchan` protocol, the number of
simultaneously in-flight fetches never exceeds the channel capacity
`MaxLimitConcurrency`: a permit is sent into the buffered channel before
each fetch goroutine is spawned, and the buffer bounds outstanding
permits. -/
theorem limiter_inFlight_le_cap (cap n : Nat) (s : LimiterState)
    (h : LimiterReachable cap n s) : s.inFlight ≤ cap := by
  have hinv := limiter_invariant h
  omega

/-- C5 witness: with capacity `1` and three planned fetches, the state after
one acquire and one issue is reachable and has one in-flight fetch. -/
theorem limiter_inFlight_le_cap_witness :
    (⟨2, 0, 1, 0, 0, 1⟩ : LimiterState).inFlight ≤ 1 :=
  limiter_inFlight_le_cap 1 3 ⟨2, 0, 1, 0, 0, 1⟩
    (Relation.ReflTransGen.tail
      (Relation.ReflTransGen.tail Relation.ReflTransGen.refl
        (LimiterStep.acquire (LimiterInit 3) (by decide) (by decide)))
      (LimiterStep.issue _ (by decide)))

/-- C6: a job whose output path already exists fails at `createOutputFile`
before creating temp files or issuing any request: the filesystem is
untouched, no fetch happens, the err field records the existing path, and
no result path is appended. -/
theorem existing_output_fails_without_writes (opts : DownloadOptions) (net : Net)
    (st : DState) (fs : FS) (url fileName : String) (contentLength : Nat)
    (h : (fs.lookup (outputPathOf opts fileName)).isSome = true) :
    (downloadLargeFile opts net st fs url fileName contentLength).fs = fs ∧
    (downloadLargeFile opts net st fs url fileName contentLength).requests = [] ∧
    (downloadLargeFile opts net st fs url fileName contentLength).state.err =
      some (.fileExists (outputPathOf opts fileName)) ∧
    (downloadLargeFile opts net st fs url fileName contentLength).state.downloadPaths =
      st.downloadPaths := by
  have hcreate : createOutputFile fs (outputPathOf opts fileName) =
      Except.error (DlError.fileExists (outputPathOf opts fileName)) := by
    rw [createOutputFile, if_pos h]
  simp only [downloadLargeFile, hcreate]
  refine ⟨?_, ?_, ?_, ?_⟩ <;> trivial

/-- C6 witness: with `dl/a.bin` already on disk holding one byte, the job
for `http://h/a.bin` leaves the filesystem unchanged. -/
theorem existing_output_fails_without_writes_witness :
    (downloadLargeFile dlOpts (netOk [7]) ⟨none, []⟩ [("dl/a.bin", [9])]
      "http://h/a.bin" "a.bin" 1).fs = [("dl/a.bin", [9])] :=
  (existing_output_fails_without_writes dlOpts (netOk [7]) ⟨none, []⟩ [("dl/a.bin", [9])]
    "http://h/a.bin" "a.bin" 1 (by decide)).1

theorem probeLoop_probe_failure (net : Net) (urls : List String) (k : Nat)
    (hk : k < urls.length)
    (hprev : ∀ j, (hj : j < k) → probeOk net (urls.get ⟨j, Nat.lt_trans hj hk⟩) = true)
    (hfail : probeOk net (urls.get ⟨k, hk⟩) = false) :
    (probeLoop net none urls).1 = urls.take (k + 1) ∧
    (probeLoop net none urls).2.2 = some .probeFailed := by
  induction urls generalizing k with
  | nil => cases hk
  | cons u rest ih =>
    cases k with
    | zero =>
      cases hcheck : checkFileSizeWithHeaderContentLength net u with
      | error e =>
        refine ⟨?_, ?_⟩ <;> simp [probeLoop, hcheck]
      | ok v =>
        rw [probeOk] at hfail
        have : (u :: rest).get ⟨0, hk⟩ = u := rfl
        rw [this, hcheck] at hfail
        simp [Except.isOk, Except.toBool] at hfail
    | succ k2 =>
      have hu : probeOk net u = true := hprev 0 (Nat.succ_pos k2)
      cases hcheck : checkFileSizeWithHeaderContentLength net u with
      | error e =>
        rw [probeOk, hcheck] at hu
        simp [Except.isOk, Except.toBool] at hu
      | ok v =>
        have hk2 : k2 < rest.length := Nat.lt_of_succ_lt_succ hk
        have ih2 := ih k2 hk2
          (fun j hj => hprev (j + 1) (Nat.succ_lt_succ hj))
          hfail
        rcases hrec : probeLoop net none rest with ⟨p, pe, ea⟩
        rw [hrec] at ih2
        simp only [probeLoop, hcheck, Option.isSome_none, Bool.false_eq_true, if_false, hrec]
        exact ⟨by rw [List.take_succ_cons]; exact congrArg _ ih2.1, ih2.2⟩

/-- C8: when the HEAD probe of the `k`-th URL fails (transport error,
non-200 status, or unparsable `Content-Length`) and the probes before it
succeeded, `Download` returns a non-nil error at once with an empty path
list — the whole batch is aborted — and the URLs after the failing one are
never probed. -/
theorem probe_failure_aborts_batch (opts : DownloadOptions) (net : Net) (st : DState)
    (fs : FS) (urls : List String) (k : Nat) (hk : k < urls.length)
    (hst : st.err = none)
    (hprev : ∀ j, (hj : j < k) → probeOk net (urls.get ⟨j, Nat.lt_trans hj hk⟩) = true)
    (hfail : probeOk net (urls.get ⟨k, hk⟩) = false) :
    (DownloadRun opts net st fs urls).returnedErr = some .probeFailed ∧
    (DownloadRun opts net st fs urls).returnedPaths = [] ∧
    (DownloadRun opts net st fs urls).probedUrls = urls.take (k + 1) := by
  have hmain := probeLoop_probe_failure net urls k hk hprev hfail
  rcases hpr : probeLoop net none urls with ⟨p, pe, ea⟩
  rw [hpr] at hmain
  obtain ⟨hp, hea⟩ := hmain
  simp only at hp hea
  subst hea
  simp only [DownloadRun, hst, hpr]
  refine ⟨by trivial, by trivial, ?_⟩
  simpa using hp

/-- C8 witness: a single URL whose HEAD probe has a transport failure makes
the batch return the probe error with no paths. -/
theorem probe_failure_aborts_batch_witness :
    (DownloadRun dlOpts
      { head := fun _ => .transportError, newRequestFails := fun _ => false,
        get := fun _ _ => .response 200 [] false }
      ⟨none, []⟩ [] ["http://h/x.bin"]).returnedErr = some .probeFailed :=
  (probe_failure_aborts_batch dlOpts
    { head := fun _ => .transportError, newRequestFails := fun _ => false,
      get := fun _ _ => .response 200 [] false }
    ⟨none, []⟩ [] ["http://h/x.bin"] 0 (by decide) rfl
    (fun j hj => absurd hj (Nat.not_lt_zero j)) (by decide)).1

/-- C2 (code bug): a batch whose single job's range GET returns 404 records
`badStatus 404` in the downloader's err field, yet `Download` — after
waiting for the job — returns a nil error and even lists the failed job's
output path, because its final statement is `return d.downloadPaths, nil`,
discarding `d.err`. -/
theorem download_returns_nil_error_after_failed_fetch :
    (DownloadRun dlOpts netAll404 ⟨none, []⟩ [] ["http://h/a.bin"]).state.err =
      some (.badStatus 404) ∧
    (DownloadRun dlOpts netAll404 ⟨none, []⟩ [] ["http://h/a.bin"]).returnedErr = none ∧
    (DownloadRun dlOpts netAll404 ⟨none, []⟩ [] ["http://h/a.bin"]).returnedPaths =
      ["dl/a.bin"] :=
  ⟨rfl, rfl, rfl⟩

theorem downloadLargeFile_paths (opts : DownloadOptions) (net : Net) (st : DState)
    (fs : FS) (url fileName : String) (contentLength : Nat) :
    ∃ t, (downloadLargeFile opts net st fs url fileName contentLength).state.downloadPaths =
      st.downloadPaths ++ t := by
  simp only [downloadLargeFile]
  cases hc : createOutputFile fs (outputPathOf opts fileName) with
  | error e => exact ⟨[], by simp⟩
  | ok fs1 =>
    cases he : st.err with
    | some e => exact ⟨[], by simp⟩
    | none => exact ⟨[outputPathOf opts fileName], rfl⟩

theorem runJobs_paths (opts : DownloadOptions) (net : Net) (jobs : List PendingJob) :
    ∀ st fs, ∃ t, (runJobs opts net st fs jobs).1.downloadPaths = st.downloadPaths ++ t := by
  induction jobs with
  | nil => exact fun st fs => ⟨[], by simp [runJobs]⟩
  | cons j rest ih =>
    intro st fs
    obtain ⟨t1, h1⟩ :=
      downloadLargeFile_paths opts net st fs j.url j.fileName j.contentLength
    obtain ⟨t2, h2⟩ :=
      ih (downloadLargeFile opts net st fs j.url j.fileName j.contentLength).state
        (downloadLargeFile opts net st fs j.url j.fileName j.contentLength).fs
    refine ⟨t1 ++ t2, ?_⟩
    simp only [runJobs]
    rw [h2, h1, List.append_assoc]

theorem probeLoop_all_ok (net : Net) (urls : List String)
    (hprobe : ∀ u ∈ urls, probeOk net u = true) :
    (probeLoop net none urls).2.2 = none := by
  induction urls with
  | nil => rfl
  | cons u rest ih =>
    have hu := hprobe u (List.mem_cons_self u rest)
    cases hcheck : checkFileSizeWithHeaderContentLength net u with
    | error e =>
      rw [probeOk, hcheck] at hu
      simp [Except.isOk, Except.toBool] at hu
    | ok v =>
      have ih2 := ih (fun x hx => hprobe x (List.mem_cons_of_mem _ hx))
      rcases hrec : probeLoop net none rest with ⟨p, pe, ea⟩
      rw [hrec] at ih2
      simp only [probeLoop, hcheck, Option.isSome_none, Bool.false_eq_true, if_false, hrec]
      exact ih2

/-- C10 (amended): the downloader never resets its accumulated state — but
the second call's returned list is guaranteed to contain the previously
recorded paths only when that call reaches its final return: its err field
must still be nil when it starts and every probe in it must succeed.  Then
the returned list is the recorded list extended by the new results. -/
theorem second_call_keeps_recorded_paths (opts : DownloadOptions) (net : Net)
    (st : DState) (fs : FS) (urls : List String)
    (hst : st.err = none)
    (hprobe : ∀ u ∈ urls, probeOk net u = true) :
    ∃ t, (DownloadRun opts net st fs urls).returnedPaths = st.downloadPaths ++ t := by
  have hearly := probeLoop_all_ok net urls hprobe
  rcases hpr : probeLoop net none urls with ⟨p, pe, ea⟩
  rw [hpr] at hearly
  simp only at hearly
  subst hearly
  obtain ⟨t, ht⟩ := runJobs_paths opts net pe st fs
  refine ⟨t, ?_⟩
  simp only [DownloadRun, hst, hpr]
  exact ht

/-- C10 counterexample: after a first call in which the single job's GET
returned 404, the downloader's err field is set; a second call on a fresh
URL then takes the early return at `Download`'s `d.err != nil` check and
returns the never-assigned named result — the empty list — which does not
contain the path recorded by the first call. -/
theorem second_call_loses_recorded_paths :
    "dl/a.bin" ∈
      (DownloadRun dlOpts netAll404 ⟨none, []⟩ [] ["http://h/a.bin"]).returnedPaths ∧
    "dl/a.bin" ∉
      (DownloadRun dlOpts (netOk [7])
        (DownloadRun dlOpts netAll404 ⟨none, []⟩ [] ["http://h/a.bin"]).state
        (DownloadRun dlOpts netAll404 ⟨none, []⟩ [] ["http://h/a.bin"]).fs
        ["http://h/b.bin"]).returnedPaths := by
  refine ⟨?_, ?_⟩
  · show "dl/a.bin" ∈ (["dl/a.bin"] : List String)
    exact List.mem_cons_self _ _
  · show "dl/a.bin" ∉ ([] : List String)
    exact List.not_mem_nil _

/-- C10 witness: a downloader that has recorded `dl/a.bin` with a clean err
field keeps it in the list returned by the next call. -/
theorem second_call_keeps_recorded_paths_witness :
    ∃ t, (DownloadRun dlOpts (netOk [7]) ⟨none, ["dl/a.bin"]⟩ [("dl/a.bin", [])]
      ["http://h/b.bin"]).returnedPaths = ["dl/a.bin"] ++ t :=
  second_call_keeps_recorded_paths dlOpts (netOk [7]) ⟨none, ["dl/a.bin"]⟩
    [("dl/a.bin", [])] ["http://h/b.bin"] rfl (by decide)

end ConcurrentDownloader
